import Mathlib

/-!
A verification development for a client-side EMI (equated monthly installment)
loan calculator.  The calculator core is the function calculateEMI from
src/frontend/src/lib/emi.ts; the history cache is the hook
useEmiCalculationHistory from src/frontend/src/hooks/useEmiCalculationHistory.ts.
Numbers are modelled as real numbers (the source uses double-precision floats),
Math.pow as real exponentiation, and the thrown Error as the error branch of
Except.  The history store is modelled by explicit state passing: the in-memory
log is a List of entries, and the id and timestamp produced by Date.now and
Math.random are passed in as parameters.
-/

/-- The shape of the record returned by calculateEMI (interface EMIResult in
src/frontend/src/lib/emi.ts). -/
structure EMIResult where
  monthlyEMI : ℝ
  totalPayment : ℝ
  totalInterest : ℝ
  principal : ℝ
  tenureMonths : ℝ

/-- The single fixed message of the Error thrown by calculateEMI on invalid
input (line 448 of the source file). -/
def invalidInputMsg : String :=
  "Invalid input: principal and tenure must be positive, interest rate must be non-negative"

/-- Shallow embedding of calculateEMI from src/frontend/src/lib/emi.ts.
The validation guard, the zero-rate branch, the compounding branch with
monthlyRate = annualInterestRate / 12 / 100 and
Math.pow(1 + monthlyRate, tenureMonths), and the derived totalPayment and
totalInterest follow the source line by line; a thrown Error is the
Except.error branch. -/
noncomputable def calculateEMI (principal annualInterestRate tenureMonths : ℝ) :
    Except String EMIResult :=
  if principal ≤ 0 ∨ tenureMonths ≤ 0 ∨ annualInterestRate < 0 then
    Except.error invalidInputMsg
  else
    let monthlyEMI : ℝ :=
      if annualInterestRate = 0 then
        principal / tenureMonths
      else
        let monthlyRate := annualInterestRate / 12 / 100
        let numerator := principal * monthlyRate * (1 + monthlyRate) ^ tenureMonths
        let denominator := (1 + monthlyRate) ^ tenureMonths - 1
        numerator / denominator
    let totalPayment := monthlyEMI * tenureMonths
    let totalInterest := totalPayment - principal
    Except.ok
      { monthlyEMI := monthlyEMI
        totalPayment := totalPayment
        totalInterest := totalInterest
        principal := principal
        tenureMonths := tenureMonths }

/-- The monthly installment value computed inside calculateEMI, as a function
of the three inputs (the let-bound monthlyEMI of the source). -/
noncomputable def emiVal (principal annualInterestRate tenureMonths : ℝ) : ℝ :=
  if annualInterestRate = 0 then
    principal / tenureMonths
  else
    principal * (annualInterestRate / 12 / 100) *
        (1 + annualInterestRate / 12 / 100) ^ tenureMonths /
      ((1 + annualInterestRate / 12 / 100) ^ tenureMonths - 1)

lemma calculateEMI_ok {p r n : ℝ} (hp : 0 < p) (hr : 0 ≤ r) (hn : 0 < n) :
    calculateEMI p r n = Except.ok
      { monthlyEMI := emiVal p r n
        totalPayment := emiVal p r n * n
        totalInterest := emiVal p r n * n - p
        principal := p
        tenureMonths := n } := by
  have hcond : ¬(p ≤ 0 ∨ n ≤ 0 ∨ r < 0) := by
    push_neg
    exact ⟨hp, hn, hr⟩
  rw [calculateEMI, if_neg hcond]
  simp only [emiVal]

lemma calculateEMI_err {p r n : ℝ} (h : p ≤ 0 ∨ n ≤ 0 ∨ r < 0) :
    calculateEMI p r n = Except.error invalidInputMsg := by
  rw [calculateEMI, if_pos h]

/-! ## History store (useEmiCalculationHistory.ts) -/

/-- MAX_HISTORY_ITEMS from the source. -/
def MAX_HISTORY_ITEMS : Nat := 50

/-- interface HistoryEntry from the source.  The numeric fields (JS numbers)
are modelled as rationals; the timestamp (epoch milliseconds from Date.now)
as a natural number. -/
structure HistoryEntry where
  id : String
  timestamp : ℕ
  principal : ℚ
  annualInterestRate : ℚ
  tenureMonths : ℚ
  monthlyEMI : ℚ
  totalInterest : ℚ
  totalPayment : ℚ
  deriving DecidableEq

/-- The argument of addEntry: a HistoryEntry minus its id and timestamp
(the Omit type in the source). -/
structure EntryInput where
  principal : ℚ
  annualInterestRate : ℚ
  tenureMonths : ℚ
  monthlyEMI : ℚ
  totalInterest : ℚ
  totalPayment : ℚ
  deriving DecidableEq

/-- The newEntry object built by addEntry: the payload spread together with
the generated id and timestamp (both nondeterministic in the source, hence
parameters here). -/
def mkHistoryEntry (entry : EntryInput) (id : String) (timestamp : ℕ) : HistoryEntry :=
  { id := id
    timestamp := timestamp
    principal := entry.principal
    annualInterestRate := entry.annualInterestRate
    tenureMonths := entry.tenureMonths
    monthlyEMI := entry.monthlyEMI
    totalInterest := entry.totalInterest
    totalPayment := entry.totalPayment }

/-- Shallow embedding of addEntry.  The first component is the value of the
call: the source function ends without a return statement, so a call
evaluates to undefined, modelled as none.  The second component is the new
in-memory log passed to setHistory: the new entry consed onto the previous
log and then sliced to MAX_HISTORY_ITEMS. -/
def addEntry (entry : EntryInput) (id : String) (timestamp : ℕ)
    (prev : List HistoryEntry) : Option HistoryEntry × List HistoryEntry :=
  let newEntry := mkHistoryEntry entry id timestamp
  (none, (newEntry :: prev).take MAX_HISTORY_ITEMS)

/-- Shallow embedding of clearHistory: the in-memory log becomes empty
(the localStorage removal is a persistence side effect outside this model). -/
def clearHistory (_ : List HistoryEntry) : List HistoryEntry := []

/-- Shallow embedding of getEntry: history.find on matching id. -/
def getEntry (id : String) (history : List HistoryEntry) : Option HistoryEntry :=
  history.find? (fun entry => entry.id == id)

/-- A sequence of addEntry calls applied in order, threading the log. -/
def addAll : List (EntryInput × String × ℕ) → List HistoryEntry → List HistoryEntry
  | [], s => s
  | a :: rest, s => addAll rest (addEntry a.1 a.2.1 a.2.2 s).2

/-! ### Initialization (the load effect) -/

/-- A JavaScript value as produced by JSON.parse. -/
inductive JsValue where
  | null
  | bool (b : Bool)
  | num (q : ℚ)
  | str (s : String)
  | arr (elems : List JsValue)
  | obj (fields : List (String × JsValue))

/-- Shallow embedding of the load effect that initializes the store.
The argument is the outcome of reading and parsing the persisted slot:
none when localStorage.getItem returned null, Except.error when JSON.parse
threw (caught by the try/catch, leaving the log empty), and Except.ok with
the parsed value otherwise.  The source then checks only
Array.isArray(parsed.entries) and, when it holds, installs the stored array
as-is; in every other case (including property access throwing on null,
also caught) the log stays empty.  Keys of a parsed object are unique, so
list lookup models property access. -/
def loadHistory (stored : Option (Except String JsValue)) : List JsValue :=
  match stored with
  | none => []
  | some (Except.error _) => []
  | some (Except.ok parsed) =>
    match parsed with
    | JsValue.obj fields =>
      match fields.lookup "entries" with
      | some (JsValue.arr xs) => xs
      | _ => []
    | _ => []

/-! ## Analysis of the amortization factor

With monthly rate m = annualInterestRate / 12 / 100 and tenure n, the
compounding branch of the calculator equals
principal * (m * A / (A - 1)) with A = (1 + m) ^ n, which rewrites to
principal * annuityF n m below.  The lemmas establish the facts P1 through
P4 of the spec need: the factor exceeds 1 / n and is strictly increasing
in the rate. -/

lemma rpow_neg_lt_one {m n : ℝ} (hm : 0 < m) (hn : 0 < n) :
    (1 + m) ^ (-n) < 1 :=
  Real.rpow_lt_one_of_one_lt_of_neg (by linarith) (by linarith)

lemma one_sub_rpow_neg_pos {m n : ℝ} (hm : 0 < m) (hn : 0 < n) :
    0 < 1 - (1 + m) ^ (-n) := by
  have := rpow_neg_lt_one hm hn
  linarith

lemma one_sub_mul_lt_rpow_neg {m n : ℝ} (hm : 0 < m) (hn : 0 < n) :
    1 - n * m < (1 + m) ^ (-n) := by
  have h1 : (0:ℝ) < 1 + m := by linarith
  have hlog : Real.log (1 + m) < m := by
    have h := Real.log_lt_sub_one_of_pos h1 (by linarith)
    linarith
  have hexp : Real.log (1 + m) * (-n) + 1 ≤ Real.exp (Real.log (1 + m) * (-n)) :=
    Real.add_one_le_exp _
  have hmul : n * Real.log (1 + m) < n * m := mul_lt_mul_of_pos_left hlog hn
  rw [Real.rpow_def_of_pos h1]
  nlinarith [hexp, hmul]

/-- The per-unit-of-principal installment factor of the compounding branch. -/
noncomputable def annuityF (n m : ℝ) : ℝ := m / (1 - (1 + m) ^ (-n))

lemma one_lt_rpow_base {m n : ℝ} (hm : 0 < m) (hn : 0 < n) :
    1 < (1 + m) ^ n :=
  (Real.one_lt_rpow_iff_of_pos (by linarith)).mpr (Or.inl ⟨by linarith, hn⟩)

lemma emi_core_eq {m n : ℝ} (hm : 0 < m) (hn : 0 < n) :
    m * (1 + m) ^ n / ((1 + m) ^ n - 1) = annuityF n m := by
  have h1 : (0:ℝ) < 1 + m := by linarith
  have hA : (1:ℝ) < (1 + m) ^ n := one_lt_rpow_base hm hn
  have hA0 : (1 + m) ^ n ≠ 0 := by positivity
  have hA1 : (1 + m) ^ n - 1 ≠ 0 := sub_ne_zero.mpr (ne_of_gt hA)
  rw [annuityF, Real.rpow_neg h1.le]
  rw [inv_eq_one_div]
  field_simp

lemma one_div_lt_annuityF {m n : ℝ} (hm : 0 < m) (hn : 0 < n) :
    1 / n < annuityF n m := by
  have hD : 0 < 1 - (1 + m) ^ (-n) := one_sub_rpow_neg_pos hm hn
  rw [annuityF, div_lt_div_iff₀ hn hD]
  have h := one_sub_mul_lt_rpow_neg hm hn
  nlinarith [h]

lemma annuityF_pos {m n : ℝ} (hm : 0 < m) (hn : 0 < n) :
    0 < annuityF n m :=
  lt_trans (by positivity) (one_div_lt_annuityF hm hn)

lemma annuityF_deriv_pos {n x : ℝ} (hn : 0 < n) (hx : 0 < x) :
    ∃ v, HasDerivAt (annuityF n) v x ∧ 0 < v := by
  have h1 : (0:ℝ) < 1 + x := by linarith
  have hD : 0 < 1 - (1 + x) ^ (-n) := one_sub_rpow_neg_pos hx hn
  have hbase : HasDerivAt (fun m : ℝ => 1 + m) 1 x := by
    simpa using (hasDerivAt_id x).const_add (1 : ℝ)
  have hpow : HasDerivAt (fun m : ℝ => (1 + m) ^ (-n))
      (1 * (-n) * (1 + x) ^ (-n - 1)) x :=
    hbase.rpow_const (Or.inl (ne_of_gt h1))
  have hden : HasDerivAt (fun m : ℝ => 1 - (1 + m) ^ (-n))
      (-(1 * (-n) * (1 + x) ^ (-n - 1))) x := hpow.const_sub 1
  have hquot := (hasDerivAt_id' x).div hden (ne_of_gt hD)
  refine ⟨_, hquot, ?_⟩
  show 0 < (1 * (1 - (1 + x) ^ (-n)) - x * -(1 * -n * (1 + x) ^ (-n - 1))) /
      (1 - (1 + x) ^ (-n)) ^ 2
  have hA : 0 < (1 + x) ^ (n + 1) := Real.rpow_pos_of_pos h1 _
  have hbern : 1 + (n + 1) * x < (1 + x) ^ (n + 1) :=
    one_add_mul_self_lt_rpow_one_add (by linarith) (ne_of_gt hx) (by linarith)
  have e1 : (1 + x) ^ (-n) = (1 + x) * ((1 + x) ^ (n + 1))⁻¹ := by
    rw [show (-n : ℝ) = 1 + -(n + 1) by ring, Real.rpow_add h1, Real.rpow_one,
      Real.rpow_neg h1.le]
  have e2 : (1 + x) ^ (-n - 1) = ((1 + x) ^ (n + 1))⁻¹ := by
    rw [show (-n - 1 : ℝ) = -(n + 1) by ring, Real.rpow_neg h1.le]
  have hnum : 0 < 1 - (1 + x) ^ (-n) - x * (n * (1 + x) ^ (-n - 1)) := by
    rw [e1, e2]
    have hinv : 0 < ((1 + x) ^ (n + 1))⁻¹ := inv_pos.mpr hA
    have hlt : ((1 + x) + x * n) * ((1 + x) ^ (n + 1))⁻¹ <
        (1 + x) ^ (n + 1) * ((1 + x) ^ (n + 1))⁻¹ := by
      apply mul_lt_mul_of_pos_right _ hinv
      nlinarith [hbern]
    rw [mul_inv_cancel₀ (ne_of_gt hA)] at hlt
    nlinarith [hlt]
  apply div_pos
  · nlinarith [hnum]
  · positivity

lemma annuityF_strictMonoOn {n : ℝ} (hn : 0 < n) :
    StrictMonoOn (annuityF n) (Set.Ioi 0) := by
  apply strictMonoOn_of_deriv_pos (convex_Ioi 0)
  · intro x hx
    obtain ⟨v, hd, -⟩ := annuityF_deriv_pos hn hx
    exact hd.differentiableAt.continuousAt.continuousWithinAt
  · intro x hx
    rw [interior_Ioi] at hx
    obtain ⟨v, hd, hv⟩ := annuityF_deriv_pos hn hx
    rw [hd.deriv]
    exact hv

lemma emiVal_zero_rate (p n : ℝ) : emiVal p 0 n = p / n := by
  rw [emiVal, if_pos rfl]

lemma emiVal_pos_rate {p r n : ℝ} (hr : 0 < r) (hn : 0 < n) :
    emiVal p r n = p * annuityF n (r / 1200) := by
  have hm : 0 < r / 1200 := by positivity
  rw [emiVal, if_neg (ne_of_gt hr)]
  rw [show r / 12 / 100 = r / 1200 by ring]
  rw [← emi_core_eq hm hn]
  ring

lemma emiVal_lt_emiVal {p n r1 r2 : ℝ} (hp : 0 < p) (hn : 0 < n)
    (h1 : 0 ≤ r1) (h12 : r1 < r2) :
    emiVal p r1 n < emiVal p r2 n := by
  have hr2 : 0 < r2 := lt_of_le_of_lt h1 h12
  have hm2 : 0 < r2 / 1200 := by positivity
  rcases eq_or_lt_of_le h1 with h0 | hr1
  · rw [← h0, emiVal_zero_rate, emiVal_pos_rate hr2 hn]
    have hb := one_div_lt_annuityF hm2 hn
    calc p / n = p * (1 / n) := by ring
    _ < p * annuityF n (r2 / 1200) := mul_lt_mul_of_pos_left hb hp
  · rw [emiVal_pos_rate hr1 hn, emiVal_pos_rate hr2 hn]
    refine mul_lt_mul_of_pos_left ?_ hp
    exact annuityF_strictMonoOn hn (Set.mem_Ioi.mpr (by positivity))
      (Set.mem_Ioi.mpr (by positivity)) (by linarith)

lemma emiVal_mul_gt {p r n : ℝ} (hp : 0 < p) (hr : 0 < r) (hn : 0 < n) :
    p < emiVal p r n * n := by
  have hm : 0 < r / 1200 := by positivity
  rw [emiVal_pos_rate hr hn]
  have hb := one_div_lt_annuityF hm hn
  have h := mul_lt_mul_of_pos_left hb hp
  have hpn : p * (1 / n) * n = p := by
    field_simp
  nlinarith [h, mul_lt_mul_of_pos_right h hn]

/-- Modelled from the spec: a stored JSON value is a well-formed HistoryEntry
when it is an object carrying the eight fields of the persisted layout of
section 6 of the spec, with a string id and numeric remaining fields.  The
source performs no such per-element validation; this definition follows the
words of the spec so that the divergence can be exhibited. -/
def wellFormedEntry : JsValue → Bool
  | JsValue.obj fields =>
    (match fields.lookup "id" with
      | some (JsValue.str _) => true
      | _ => false) &&
    (match fields.lookup "timestamp" with
      | some (JsValue.num _) => true
      | _ => false) &&
    (match fields.lookup "principal" with
      | some (JsValue.num _) => true
      | _ => false) &&
    (match fields.lookup "annualInterestRate" with
      | some (JsValue.num _) => true
      | _ => false) &&
    (match fields.lookup "tenureMonths" with
      | some (JsValue.num _) => true
      | _ => false) &&
    (match fields.lookup "monthlyEMI" with
      | some (JsValue.num _) => true
      | _ => false) &&
    (match fields.lookup "totalInterest" with
      | some (JsValue.num _) => true
      | _ => false) &&
    (match fields.lookup "totalPayment" with
      | some (JsValue.num _) => true
      | _ => false)
  | _ => false

/-! ## Helper lemmas for the history log -/

lemma addAll_take (adds : List (EntryInput × String × ℕ)) (s : List HistoryEntry) :
    addAll adds (s.take MAX_HISTORY_ITEMS) =
      ((adds.map (fun a => mkHistoryEntry a.1 a.2.1 a.2.2)).reverse ++ s).take
        MAX_HISTORY_ITEMS := by
  induction adds generalizing s with
  | nil => simp [addAll]
  | cons a rest ih =>
    rw [addAll]
    have hstep : (addEntry a.1 a.2.1 a.2.2 (s.take MAX_HISTORY_ITEMS)).2
        = (mkHistoryEntry a.1 a.2.1 a.2.2 :: s).take MAX_HISTORY_ITEMS := by
      show (mkHistoryEntry a.1 a.2.1 a.2.2 :: s.take MAX_HISTORY_ITEMS).take
          MAX_HISTORY_ITEMS = _
      rw [show MAX_HISTORY_ITEMS = 49 + 1 from rfl, List.take_succ_cons,
        List.take_succ_cons, List.take_take]
      have hmin : (49 : ℕ) ⊓ (49 + 1) = 49 := by omega
      rw [hmin]
    rw [hstep, ih (mkHistoryEntry a.1 a.2.1 a.2.2 :: s)]
    simp

lemma addAll_eq (adds : List (EntryInput × String × ℕ)) (init : List HistoryEntry)
    (h : adds ≠ []) :
    addAll adds init =
      ((adds.map (fun a => mkHistoryEntry a.1 a.2.1 a.2.2)).reverse ++ init).take
        MAX_HISTORY_ITEMS := by
  cases adds with
  | nil => exact absurd rfl h
  | cons a rest =>
    rw [addAll]
    have hstep : (addEntry a.1 a.2.1 a.2.2 init).2
        = (mkHistoryEntry a.1 a.2.1 a.2.2 :: init).take MAX_HISTORY_ITEMS := rfl
    rw [hstep, addAll_take rest (mkHistoryEntry a.1 a.2.1 a.2.2 :: init)]
    simp

/-! ## Claims about the calculator -/

/-- C1: for every valid input (principal > 0, annualInterestRate >= 0,
tenureMonths > 0) the result of calculateEMI satisfies
totalPayment = monthlyEMI * tenureMonths and
totalInterest = totalPayment - principal. -/
theorem emi_conservation (p r n : ℝ) (hp : 0 < p) (hr : 0 ≤ r) (hn : 0 < n) :
    ∃ res : EMIResult, calculateEMI p r n = Except.ok res ∧
      res.totalPayment = res.monthlyEMI * n ∧
      res.totalInterest = res.totalPayment - p :=
  ⟨_, calculateEMI_ok hp hr hn, rfl, rfl⟩

theorem emi_conservation_witness :
    (0:ℝ) < 100 ∧ (0:ℝ) ≤ 9 ∧ (0:ℝ) < 12 ∧
    ∃ res : EMIResult, calculateEMI 100 9 12 = Except.ok res ∧
      res.totalPayment = res.monthlyEMI * 12 ∧
      res.totalInterest = res.totalPayment - 100 :=
  ⟨by norm_num, by norm_num, by norm_num,
    emi_conservation 100 9 12 (by norm_num) (by norm_num) (by norm_num)⟩

/-- C2 counterexample: calculateEMI produces the identical single generic
error for a violated principal (input (0, 5, 12)) as for a violated tenure
(input (100, 5, 0)), so the error cannot identify which field is invalid;
in particular compute(0, 5, 12) does not fail with an InvalidInput value
naming the principal field, but with this fixed generic message. -/
theorem emi_error_field_counterexample :
    calculateEMI 0 5 12 = Except.error invalidInputMsg ∧
    calculateEMI 100 5 0 = Except.error invalidInputMsg :=
  ⟨calculateEMI_err (Or.inl le_rfl), calculateEMI_err (Or.inr (Or.inl le_rfl))⟩

/-- C2 (amended): whenever a precondition is violated (principal <= 0,
tenureMonths <= 0, or annualInterestRate < 0), calculateEMI fails with the
single generic invalid-input error, whose fixed message does not identify
the offending field, and returns no partial result; in particular
compute(0, 5, 12) fails with this generic error. -/
theorem emi_invalid_input_generic_error (p r n : ℝ)
    (h : p ≤ 0 ∨ n ≤ 0 ∨ r < 0) :
    calculateEMI p r n = Except.error invalidInputMsg :=
  calculateEMI_err h

theorem emi_invalid_input_generic_error_witness :
    ((0:ℝ) ≤ 0 ∨ (12:ℝ) ≤ 0 ∨ (5:ℝ) < 0) ∧
    calculateEMI 0 5 12 = Except.error invalidInputMsg :=
  ⟨Or.inl le_rfl, emi_invalid_input_generic_error 0 5 12 (Or.inl le_rfl)⟩

/-- C5: for every principal > 0 and tenureMonths > 0, the zero-rate call
returns monthlyEMI = principal / tenureMonths. -/
theorem emi_zero_rate (p n : ℝ) (hp : 0 < p) (hn : 0 < n) :
    ∃ res : EMIResult, calculateEMI p 0 n = Except.ok res ∧
      res.monthlyEMI = p / n :=
  ⟨_, calculateEMI_ok hp le_rfl hn, emiVal_zero_rate p n⟩

theorem emi_zero_rate_witness :
    (0:ℝ) < 100000 ∧ (0:ℝ) < 10 ∧
    ∃ res : EMIResult, calculateEMI 100000 0 10 = Except.ok res ∧
      res.monthlyEMI = 100000 / 10 :=
  ⟨by norm_num, by norm_num, emi_zero_rate 100000 10 (by norm_num) (by norm_num)⟩

/-- C6: holding principal > 0 and tenureMonths > 0 fixed, the monthlyEMI
returned by calculateEMI is strictly increasing in the annual rate: for
0 <= r1 < r2 the result at r1 has strictly smaller monthlyEMI than the
result at r2. -/
theorem emi_monotone_in_rate (p n r1 r2 : ℝ) (hp : 0 < p) (hn : 0 < n)
    (h1 : 0 ≤ r1) (h12 : r1 < r2) :
    ∃ res1 res2 : EMIResult,
      calculateEMI p r1 n = Except.ok res1 ∧
      calculateEMI p r2 n = Except.ok res2 ∧
      res1.monthlyEMI < res2.monthlyEMI :=
  ⟨_, _, calculateEMI_ok hp h1 hn,
    calculateEMI_ok hp (le_trans h1 h12.le) hn,
    emiVal_lt_emiVal hp hn h1 h12⟩

theorem emi_monotone_in_rate_witness :
    (0:ℝ) < 100 ∧ (0:ℝ) < 12 ∧ (0:ℝ) ≤ 0 ∧ (0:ℝ) < 6 ∧
    ∃ res1 res2 : EMIResult,
      calculateEMI 100 0 12 = Except.ok res1 ∧
      calculateEMI 100 6 12 = Except.ok res2 ∧
      res1.monthlyEMI < res2.monthlyEMI :=
  ⟨by norm_num, by norm_num, le_rfl, by norm_num,
    emi_monotone_in_rate 100 12 0 6 (by norm_num) (by norm_num) le_rfl
      (by norm_num)⟩

/-- C7: for every valid input with annualInterestRate >= 0, the totalInterest
returned by calculateEMI is nonnegative, and it is zero exactly when the
rate is zero. -/
theorem emi_nonneg_interest (p r n : ℝ) (hp : 0 < p) (hr : 0 ≤ r) (hn : 0 < n) :
    ∃ res : EMIResult, calculateEMI p r n = Except.ok res ∧
      0 ≤ res.totalInterest ∧ (res.totalInterest = 0 ↔ r = 0) := by
  refine ⟨_, calculateEMI_ok hp hr hn, ?_, ?_⟩
  · show 0 ≤ emiVal p r n * n - p
    rcases eq_or_lt_of_le hr with h0 | hrpos
    · rw [← h0, emiVal_zero_rate, div_mul_cancel₀ p (ne_of_gt hn)]
      simp
    · have h := emiVal_mul_gt hp hrpos hn
      linarith
  · show emiVal p r n * n - p = 0 ↔ r = 0
    constructor
    · intro hti
      by_contra hne
      have hrpos : 0 < r := lt_of_le_of_ne hr (Ne.symm hne)
      have h := emiVal_mul_gt hp hrpos hn
      linarith
    · intro h0
      rw [h0, emiVal_zero_rate, div_mul_cancel₀ p (ne_of_gt hn)]
      ring

theorem emi_nonneg_interest_witness :
    (0:ℝ) < 100 ∧ (0:ℝ) ≤ 9 ∧ (0:ℝ) < 12 ∧
    ∃ res : EMIResult, calculateEMI 100 9 12 = Except.ok res ∧
      0 ≤ res.totalInterest ∧ (res.totalInterest = 0 ↔ (9:ℝ) = 0) :=
  ⟨by norm_num, by norm_num, by norm_num,
    emi_nonneg_interest 100 9 12 (by norm_num) (by norm_num) (by norm_num)⟩

/-- C9: calculateEMI raises an error if and only if principal <= 0,
tenureMonths <= 0 or annualInterestRate < 0; in particular the non-integer
tenure value 0.5 satisfies the check and a result is produced without
error. -/
theorem emi_error_iff :
    (∀ p r n : ℝ, (∃ e, calculateEMI p r n = Except.error e) ↔
      (p ≤ 0 ∨ n ≤ 0 ∨ r < 0)) ∧
    (∃ res : EMIResult, calculateEMI 100 0 (1 / 2) = Except.ok res) := by
  constructor
  · intro p r n
    constructor
    · rintro ⟨e, he⟩
      by_contra hc
      push_neg at hc
      rw [calculateEMI_ok hc.1 hc.2.2 hc.2.1] at he
      exact Except.noConfusion he
    · intro h
      exact ⟨invalidInputMsg, calculateEMI_err h⟩
  · exact ⟨_, calculateEMI_ok (by norm_num) le_rfl (by norm_num)⟩

/-- C10: for every valid input the record returned by calculateEMI echoes the
inputs unchanged beyond the three derived fields: res.principal equals the
principal argument and res.tenureMonths equals the tenureMonths argument. -/
theorem emi_echoes_inputs (p r n : ℝ) (hp : 0 < p) (hr : 0 ≤ r) (hn : 0 < n) :
    ∃ res : EMIResult, calculateEMI p r n = Except.ok res ∧
      res.principal = p ∧ res.tenureMonths = n :=
  ⟨_, calculateEMI_ok hp hr hn, rfl, rfl⟩

theorem emi_echoes_inputs_witness :
    (0:ℝ) < 500000 ∧ (0:ℝ) ≤ 8.5 ∧ (0:ℝ) < 240 ∧
    ∃ res : EMIResult, calculateEMI 500000 8.5 240 = Except.ok res ∧
      res.principal = 500000 ∧ res.tenureMonths = 240 :=
  ⟨by norm_num, by norm_num, by norm_num,
    emi_echoes_inputs 500000 8.5 240 (by norm_num) (by norm_num) (by norm_num)⟩

/-! ## Claims about the history store -/

/-- C3 counterexample: the length bound is not preserved by every operation
of the history store: initialization installs the stored entries array
without truncation, so loading a persisted payload whose entries array
holds 51 elements yields an in-memory log of 51 entries, exceeding the
bound of 50. -/
theorem history_init_bound_counterexample :
    loadHistory (some (Except.ok (JsValue.obj
        [("entries", JsValue.arr (List.replicate 51 JsValue.null))]))) =
      List.replicate 51 JsValue.null ∧
    ¬((List.replicate 51 JsValue.null).length ≤ 50) :=
  ⟨rfl, by simp⟩

/-- C3 (amended): for every sequence of more than 50 sequential addEntry
calls starting from any history log, the log afterwards holds exactly 50
entries, namely the 50 most recently added ones in newest-first order (the
reverse of the add sequence truncated at 50); the length bound of 50 is
preserved by addEntry and clearHistory, but not by initialization, which
installs a persisted entries array unchanged, whatever its length. -/
theorem history_bound (adds : List (EntryInput × String × ℕ))
    (init : List HistoryEntry) (h : 50 < adds.length) :
    (addAll adds init).length = 50 ∧
    addAll adds init =
      ((adds.map (fun a => mkHistoryEntry a.1 a.2.1 a.2.2)).reverse).take 50 ∧
    (∀ e id ts s, ((addEntry e id ts s).2).length ≤ 50) ∧
    (∀ s : List HistoryEntry, (clearHistory s).length ≤ 50) ∧
    (∀ fields xs, fields.lookup "entries" = some (JsValue.arr xs) →
      (loadHistory (some (Except.ok (JsValue.obj fields)))).length = xs.length) := by
  have hne : adds ≠ [] := by
    intro hnil
    rw [hnil] at h
    simp at h
  have hlen : 50 ≤
      ((adds.map (fun a => mkHistoryEntry a.1 a.2.1 a.2.2)).reverse).length := by
    simp
    omega
  have heq : addAll adds init =
      ((adds.map (fun a => mkHistoryEntry a.1 a.2.1 a.2.2)).reverse).take 50 := by
    rw [addAll_eq adds init hne]
    rw [show MAX_HISTORY_ITEMS = 50 from rfl]
    exact List.take_append_of_le_length hlen
  refine ⟨?_, heq, ?_, ?_, ?_⟩
  · rw [heq, List.length_take_of_le hlen]
  · intro e id ts s
    simp [addEntry, MAX_HISTORY_ITEMS]
  · intro s
    simp [clearHistory]
  · intro fields xs hx
    simp only [loadHistory, hx]

theorem history_bound_witness :
    50 < (List.replicate 51 ((⟨0, 0, 0, 0, 0, 0⟩ : EntryInput), "x", 0)).length ∧
    (addAll (List.replicate 51 ((⟨0, 0, 0, 0, 0, 0⟩ : EntryInput), "x", 0))
      []).length = 50 :=
  ⟨by simp, (history_bound _ [] (by simp)).1⟩

/-- C4 counterexample: at a concrete call the value of addEntry is none (the
source function body has no return statement, so a call evaluates to
undefined), not the created entry, refuting that add returns the created
entry. -/
theorem addEntry_return_counterexample :
    (addEntry ⟨0, 0, 0, 0, 0, 0⟩ "a" 0 []).1 = none ∧
    (addEntry ⟨0, 0, 0, 0, 0, 0⟩ "a" 0 []).1 ≠
      some (mkHistoryEntry ⟨0, 0, 0, 0, 0, 0⟩ "a" 0) := by
  constructor
  · rfl
  · simp [addEntry]

/-- C4 (amended): addEntry constructs the new HistoryEntry from the payload
together with the generated id and timestamp, prepends it to the log
(truncated to the bound), and returns undefined rather than the created
entry; a subsequent getEntry on the created entry id yields an entry whose
input and result fields equal the originals passed to addEntry. -/
theorem addEntry_roundtrip (e : EntryInput) (id : String) (ts : ℕ)
    (prev : List HistoryEntry) :
    (addEntry e id ts prev).1 = none ∧
    (addEntry e id ts prev).2 =
      mkHistoryEntry e id ts :: prev.take (MAX_HISTORY_ITEMS - 1) ∧
    getEntry id (addEntry e id ts prev).2 = some (mkHistoryEntry e id ts) ∧
    (mkHistoryEntry e id ts).principal = e.principal ∧
    (mkHistoryEntry e id ts).annualInterestRate = e.annualInterestRate ∧
    (mkHistoryEntry e id ts).tenureMonths = e.tenureMonths ∧
    (mkHistoryEntry e id ts).monthlyEMI = e.monthlyEMI ∧
    (mkHistoryEntry e id ts).totalInterest = e.totalInterest ∧
    (mkHistoryEntry e id ts).totalPayment = e.totalPayment := by
  have hpre : (addEntry e id ts prev).2 =
      mkHistoryEntry e id ts :: prev.take (MAX_HISTORY_ITEMS - 1) := by
    show (mkHistoryEntry e id ts :: prev).take MAX_HISTORY_ITEMS = _
    rw [show MAX_HISTORY_ITEMS = 49 + 1 from rfl, List.take_succ_cons]
  refine ⟨rfl, hpre, ?_, rfl, rfl, rfl, rfl, rfl, rfl⟩
  rw [getEntry, hpre, List.find?_cons_of_pos]
  simp [mkHistoryEntry]

/-- C8 counterexample: a persisted payload whose entries array holds a value
that is not a well-formed HistoryEntry (the bare number 42) passes the only
structural check the code performs (Array.isArray on the entries field) and
is loaded into memory as-is, so the store does not start with an empty log
on this structurally invalid payload. -/
theorem load_validation_counterexample :
    loadHistory (some (Except.ok
        (JsValue.obj [("entries", JsValue.arr [JsValue.num 42])]))) =
      [JsValue.num 42] ∧
    wellFormedEntry (JsValue.num 42) = false ∧
    [JsValue.num 42] ≠ ([] : List JsValue) := by
  refine ⟨rfl, rfl, ?_⟩
  simp

/-- C8 (amended): history-store initialization never fails: an absent or
unparseable payload gives an empty log, and the structural validation is
only that the entries field of the parsed payload is an array; any such
array is loaded into memory as-is, without checking that its elements are
well-formed HistoryEntry values, and every other payload gives an empty
log. -/
theorem load_never_fails :
    loadHistory none = [] ∧
    (∀ e, loadHistory (some (Except.error e)) = []) ∧
    (∀ fields xs, fields.lookup "entries" = some (JsValue.arr xs) →
      loadHistory (some (Except.ok (JsValue.obj fields))) = xs) ∧
    (∀ fields, (∀ xs, fields.lookup "entries" ≠ some (JsValue.arr xs)) →
      loadHistory (some (Except.ok (JsValue.obj fields))) = []) := by
  refine ⟨rfl, fun e => rfl, ?_, ?_⟩
  · intro fields xs h
    simp only [loadHistory, h]
  · intro fields h
    simp only [loadHistory]

theorem load_never_fails_witness :
    List.lookup "entries" [("entries", JsValue.arr ([] : List JsValue))] =
      some (JsValue.arr ([] : List JsValue)) ∧
    loadHistory (some (Except.ok
      (JsValue.obj [("entries", JsValue.arr ([] : List JsValue))]))) = [] :=
  ⟨rfl, load_never_fails.2.2.1 _ _ rfl⟩
